import Mathlib

/-
Verification of the LLM-API-Requestor client (src/main.py) against its
natural-language specification.

The development shallowly embeds the three core components:
  * the SSE stream decoder (DashscopeClient._process_stream),
  * the image resolver (encode_image_to_base64) and the multimodal
    content assembler (process_user_input),
  * the per-turn conversation accumulator (the body of main's REPL loop).

External library calls (json.loads, os.path.normpath, file reads,
base64.b64encode, the HTTP transport) are modelled as parameters, since
they live outside the repository.  Byte strings are modelled as Lean
strings (the repository only ever slices at ASCII positions after an
ASCII prefix test, where byte and character indices agree).
-/

set_option autoImplicit false

/-- Python whitespace characters recognised by bytes.strip / str.strip
(ASCII fragment; the inputs in question are ASCII). -/
def pyWhitespace (c : Char) : Bool :=
  c = ' ' || c = '\t' || c = '\n' || c = '\r' || c = '\x0b' || c = '\x0c'

/-- Python str.strip on a character list: drop whitespace at both ends. -/
def pyStripL (cs : List Char) : List Char :=
  ((cs.dropWhile pyWhitespace).reverse.dropWhile pyWhitespace).reverse

/-- Python str.strip on strings. -/
def pyStrip (s : String) : String :=
  String.mk (pyStripL s.data)

/-- Python str.startswith. -/
def pyStartsWith (s p : String) : Bool :=
  p.data.isPrefixOf s.data

/-- Python slicing s[n:] (character-based; coincides with the byte-based
slice after an ASCII prefix has been checked). -/
def pyDrop (s : String) (n : Nat) : String :=
  String.mk (s.data.drop n)

/-- DashscopeClient._process_stream (src/main.py lines 49-62): iterate the
response lines; skip empty lines; stop at the b'data: [DONE]' sentinel
(compared after strip); for lines with the b'data: ' prefix, strip the
prefix and JSON-decode the remainder, yielding the chunk on success and
merely logging (then continuing) on a JSONDecodeError.  json.loads is
external and is modelled by the parameter parse, with none standing for
a decode error. -/
def processStream {α : Type} (parse : String → Option α) : List String → List α
  | [] => []
  | l :: rest =>
    if l = "" then processStream parse rest
    else if pyStrip l = "data: [DONE]" then []
    else if pyStartsWith l "data: " then
      match parse (pyDrop l 6) with
      | some chunk => chunk :: processStream parse rest
      | none => processStream parse rest
    else processStream parse rest

/-- A content block of a message: the dictionaries
\x7b"type":"text","text":t\x7d and
\x7b"type":"image_url","image_url":\x7b"url":u\x7d\x7d produced by
process_user_input. -/
inductive ContentBlock where
  | text (text : String)
  | imageUrl (url : String)
deriving DecidableEq

/-- Message roles used by main. -/
inductive Role where
  | system
  | user
  | assistant
deriving DecidableEq

/-- One entry of the messages list maintained by main. -/
structure Message where
  role : Role
  content : List ContentBlock
deriving DecidableEq

/-- The external filesystem / base64 collaborators used by
encode_image_to_base64: os.path.normpath, the existence-checked file read
(none models both the not-found early return and an IO exception), and
base64.b64encode(...).decode('utf-8'). -/
structure FS where
  normpath : String → String
  readFile : String → Option String
  b64encode : String → String

/-- encode_image_to_base64 (src/main.py lines 65-83): pass remote
http(s) URLs through unchanged with no I/O; otherwise normalise the path
and read the file, wrapping the base64 payload in a JPEG data URI; a
missing file or an IO failure yields None (after a logged warning). -/
def encode_image_to_base64 (fs : FS) (image_path : String) : Option String :=
  if pyStartsWith image_path "http://" || pyStartsWith image_path "https://" then
    some image_path
  else
    match fs.readFile (fs.normpath image_path) with
    | some contents => some ("data:image/jpeg;base64," ++ fs.b64encode contents)
    | none => none

/-- The inline failure marker emitted when an image reference cannot be
resolved (src/main.py line 117). -/
def failText (path : String) : String :=
  "[Image processing failed for: " ++ path ++ "]"

/-- The per-match block choice of process_user_input (lines 106-118):
an image_url block on successful resolution, otherwise the failure text. -/
def resolveBlock (fs : FS) (path : String) : ContentBlock :=
  match encode_image_to_base64 fs path with
  | some url => ContentBlock.imageUrl url
  | none => ContentBlock.text (failText path)

/-- The literal opener of the image-marker regex r"!\[\]\((.+?)\)". -/
def markerOpen : List Char := ['!', '[', ']', '(']

/-- Scan for the closing ')' of the non-greedy capture (.+?); the capture
accumulates arbitrary non-newline characters ('.' excludes newline) and
ends at the first ')'.  acc holds the capture so far, reversed. -/
def scanClose (acc : List Char) : List Char → Option (List Char × List Char)
  | [] => none
  | c :: rest =>
    if c = ')' then some (acc.reverse, rest)
    else if c = '\n' then none
    else scanClose (c :: acc) rest

/-- Match (.+?)\) at the current position: at least one non-newline
capture character, then the earliest ')'.  Returns (capture, remainder
after the ')'). -/
def findCapture : List Char → Option (List Char × List Char)
  | [] => none
  | c :: rest => if c = '\n' then none else scanClose [c] rest

/-- Leftmost match of the image-marker regex: returns
(text before the match, capture, text after the match), or none.
Mirrors re.finditer's leftmost-first search with the non-greedy capture. -/
def findMarker : List Char → Option (List Char × List Char × List Char)
  | [] => none
  | c :: cs =>
    if markerOpen.isPrefixOf (c :: cs) then
      match findCapture ((c :: cs).drop 4) with
      | some (cap, rest) => some ([], cap, rest)
      | none =>
        match findMarker cs with
        | some (before, cap, rest) => some (c :: before, cap, rest)
        | none => none
    else
      match findMarker cs with
      | some (before, cap, rest) => some (c :: before, cap, rest)
      | none => none

/-- The match loop of process_user_input (lines 96-126): for each image
marker in order, append the stripped text before it when non-empty, then
the block for the stripped reference; after the last marker, append the
stripped remainder when non-empty.  Fuel bounds the recursion; every
match consumes at least five characters, so length + 1 fuel is never
exhausted. -/
def assembleLoopF (fs : FS) : Nat → List Char → List ContentBlock
  | 0, _ => []
  | fuel + 1, cs =>
    match findMarker cs with
    | some (before, cap, rest) =>
      (if pyStripL before = [] then [] else [ContentBlock.text (String.mk (pyStripL before))]) ++
        (resolveBlock fs (String.mk (pyStripL cap)) :: assembleLoopF fs fuel rest)
    | none =>
      if pyStripL cs = [] then [] else [ContentBlock.text (String.mk (pyStripL cs))]

/-- process_user_input (src/main.py lines 86-132): segment the text at
image markers as above; if the resulting content list is empty (the text
had no markers and stripped to nothing), fall back to a single text block
holding the original input. -/
def process_user_input (fs : FS) (text : String) : List ContentBlock :=
  let content := assembleLoopF fs (text.data.length + 1) text.data
  if content = [] then [ContentBlock.text text] else content

/-- Left-to-right reconstruction of a source text from its marker
segments: each segment contributes its preceding text, the literal
marker syntax around its captured reference, and the trailing text
closes the input.  Used to state that the assembler's blocks appear in
the left-to-right order of their source text. -/
def reassemble : List (List Char × List Char) → List Char → List Char
  | [], trail => trail
  | (before, cap) :: segs, trail =>
    before ++ markerOpen ++ cap ++ ')' :: reassemble segs trail

/-- The in-order rendering of marker segments described by the spec's
assembler algorithm: for each match in order, the trimmed text before
it when non-empty, then the block for the trimmed reference; after the
last match, the trimmed remainder when non-empty. -/
def renderBlocks (fs : FS) : List (List Char × List Char) → List Char → List ContentBlock
  | [], trail =>
    if pyStripL trail = [] then [] else [ContentBlock.text (String.mk (pyStripL trail))]
  | (before, cap) :: segs, trail =>
    (if pyStripL before = [] then [] else [ContentBlock.text (String.mk (pyStripL before))]) ++
      (resolveBlock fs (String.mk (pyStripL cap)) :: renderBlocks fs segs trail)

/-- The delta object of one choice: content is None-able and the key may
be absent.  none = no "content" key; some none = key present, value null;
some (some s) = a string delta. -/
structure Delta where
  content : Option (Option String)
deriving DecidableEq

/-- One element of a chunk's "choices" list; the spec's StreamEvent data
model gives every choice a delta object. -/
structure Choice where
  delta : Delta
deriving DecidableEq

/-- A decoded stream event: the "choices" key may be absent (none) or
hold a list; usage is an opaque mapping whose presence only drives
diagnostic printing. -/
structure Chunk where
  choices : Option (List Choice)
  usage : Option Unit
deriving DecidableEq

/-- Python list indexing: chunk["choices"][0] raises IndexError when out
of range. -/
def pyIndex {α : Type} (l : List α) (i : Nat) : Except String α :=
  match l.get? i with
  | some x => Except.ok x
  | none => Except.error "IndexError: list index out of range"

/-- One iteration of main's consumption loop (src/main.py lines 191-199)
acting on the accumulated full_response: when "choices" is present and
truthy (non-empty), take choices[0].delta and append its content when the
key is present and non-null; otherwise (including the usage elif, which
only prints) leave the accumulator unchanged.  An uncaught exception is
modelled by Except.error. -/
def consumeChunk (acc : String) (c : Chunk) : Except String String :=
  match c.choices with
  | some choices =>
    if choices.isEmpty then Except.ok acc
    else
      match pyIndex choices 0 with
      | Except.error e => Except.error e
      | Except.ok choice =>
        match choice.delta.content with
        | some (some s) => Except.ok (acc ++ s)
        | _ => Except.ok acc
  | none => Except.ok acc

/-- The for-loop of lines 191-199 threading full_response through the
stream, aborting on the first uncaught exception. -/
def consumeLoop (acc : String) : List Chunk → Except String String
  | [] => Except.ok acc
  | c :: rest =>
    match consumeChunk acc c with
    | Except.ok acc2 => consumeLoop acc2 rest
    | Except.error e => Except.error e

/-- full_response accumulation over a whole stream (lines 182-199),
starting from the empty string. -/
def accumulate (chunks : List Chunk) : Except String String :=
  consumeLoop "" chunks

/-- The content delta a chunk contributes to full_response: the first
choice's non-null content string, else nothing. -/
def chunkDelta (c : Chunk) : String :=
  match c.choices with
  | some (choice :: _) =>
    match choice.delta.content with
    | some (some s) => s
    | _ => ""
  | _ => ""

/-- In-order concatenation of a list of strings. -/
def concatStrings : List String → String
  | [] => ""
  | s :: rest => s ++ concatStrings rest

/-- The system message main starts the history with (lines 140-145). -/
def systemMessage : Message :=
  { role := Role.system,
    content := [ContentBlock.text "You are a helpful assistant."] }

/-- The initial history of a session. -/
def initialMessages : List Message := [systemMessage]

/-- The user message appended for a turn (lines 173-176). -/
def userMessage (content : List ContentBlock) : Message :=
  { role := Role.user, content := content }

/-- The assistant message committed after a non-empty response
(lines 202-206). -/
def assistantMessage (s : String) : Message :=
  { role := Role.assistant, content := [ContentBlock.text s] }

/-- Outcome of the transport call: failure covers a non-200 status (the
raised Exception of chat_completions_create) and any connection error;
success carries the decoded stream events. -/
inductive TransportResult where
  | failure (err : String)
  | success (chunks : List Chunk)

/-- Lines 202-206: append the assistant message only when full_response
is truthy (non-empty). -/
def commitAssistant (hist : List Message) (full : String) : List Message :=
  if full = "" then hist else hist ++ [assistantMessage full]

/-- One iteration of main's while-loop for a non-empty user input
(lines 170-209): append the user message, then run the guarded request;
a transport failure or an exception during consumption is caught by the
except clause (the error message is printed and the loop continues), so
the result is the new history together with the surfaced error, if any. -/
def runTurn (hist : List Message) (userContent : List ContentBlock)
    (tr : TransportResult) : List Message × Option String :=
  let hist1 := hist ++ [userMessage userContent]
  match tr with
  | TransportResult.failure e => (hist1, some e)
  | TransportResult.success chunks =>
    match accumulate chunks with
    | Except.ok full => (commitAssistant hist1 full, none)
    | Except.error e => (hist1, some e)

/-- Histories reachable by the session loop: the initial history, closed
under complete turns (turns skipped for whitespace-only input leave the
history untouched and need no step). -/
inductive Reachable : List Message → Prop
  | init : Reachable initialMessages
  | step (hist : List Message) (content : List ContentBlock)
      (tr : TransportResult) :
      Reachable hist → Reachable (runTurn hist content tr).1

/-- A concrete filesystem on which every local read fails. -/
def fsNone : FS :=
  { normpath := id, readFile := fun _ => none, b64encode := id }

/-- A concrete filesystem on which every local read succeeds and the
base64 encoder returns "AA==". -/
def fsAA : FS :=
  { normpath := id, readFile := fun _ => some "raw", b64encode := fun _ => "AA==" }

/-- A concrete stand-in for json.loads that accepts only the body "ok". -/
def parseW : String → Option Nat :=
  fun s => if s = "ok" then some 1 else none

/-- The JSON body of the "hi" delta event from the specification's
decoder test (braces written as \x7b/\x7d). -/
def jsonHiBody : String :=
  "\x7b\"choices\":[\x7b\"delta\":\x7b\"content\":\"hi\"\x7d\x7d]\x7d"

/-- The first line of the specification's decoder test. -/
def lineHi : String := "data: " ++ jsonHiBody

/-- The third line of the specification's decoder test, which must never
be decoded. -/
def lineIgnored : String :=
  "data: \x7b\"choices\":[\x7b\"delta\":\x7b\"content\":\"ignored\"\x7d\x7d]\x7d"

/-- A concrete stand-in for json.loads that accepts only jsonHiBody. -/
def parseHi : String → Option Nat :=
  fun s => if s = jsonHiBody then some 7 else none

/-- A line with the event-data prefix is non-empty. -/
theorem ne_empty_of_dataLine (l : String) (h : pyStartsWith l "data: " = true) :
    l ≠ "" := by
  intro hl
  rw [hl] at h
  exact absurd h (by decide)

/-- Decoder step: a data line whose JSON body fails to parse is skipped
and decoding continues with the remaining lines. -/
theorem processStream_skip {α : Type} (parse : String → Option α) (l : String)
    (rest : List String) (h1 : pyStartsWith l "data: " = true)
    (h2 : pyStrip l ≠ "data: [DONE]") (h3 : parse (pyDrop l 6) = none) :
    processStream parse (l :: rest) = processStream parse rest := by
  have hne : l ≠ "" := ne_empty_of_dataLine l h1
  simp [processStream, hne, h1, h2, h3]

/-- Decoder step: a data line whose JSON body parses is yielded in front
of the rest of the decoded stream. -/
theorem processStream_yield {α : Type} (parse : String → Option α) (l : String)
    (rest : List String) (c : α) (h1 : pyStartsWith l "data: " = true)
    (h2 : pyStrip l ≠ "data: [DONE]") (h3 : parse (pyDrop l 6) = some c) :
    processStream parse (l :: rest) = c :: processStream parse rest := by
  have hne : l ≠ "" := ne_empty_of_dataLine l h1
  simp [processStream, hne, h1, h2, h3]

/-- Decoder step: a line equal to the sentinel after strip ends the
decoded sequence regardless of the remaining lines. -/
theorem processStream_done {α : Type} (parse : String → Option α) (l : String)
    (rest : List String) (h : pyStrip l = "data: [DONE]") :
    processStream parse (l :: rest) = [] := by
  have hne : l ≠ "" := by
    intro hl
    rw [hl] at h
    exact absurd h (by decide)
  simp [processStream, hne, h]

/-- C2: a data line whose body fails to parse never aborts decoding: it
is skipped (the error is only logged) and decoding continues with the
next line, so one malformed data line followed by one valid data line
yields exactly the one valid event. -/
theorem c2_malformed_line_skipped {α : Type} (parse : String → Option α)
    (l1 l2 : String) (c : α)
    (h1 : pyStartsWith l1 "data: " = true) (h2 : pyStrip l1 ≠ "data: [DONE]")
    (h3 : parse (pyDrop l1 6) = none)
    (h4 : pyStartsWith l2 "data: " = true) (h5 : pyStrip l2 ≠ "data: [DONE]")
    (h6 : parse (pyDrop l2 6) = some c) :
    (∀ rest, processStream parse (l1 :: rest) = processStream parse rest) ∧
      processStream parse [l1, l2] = [c] := by
  constructor
  · intro rest
    exact processStream_skip parse l1 rest h1 h2 h3
  · rw [processStream_skip parse l1 [l2] h1 h2 h3,
      processStream_yield parse l2 [] c h4 h5 h6]
    rfl

/-- C2 witness: the malformed line "data: oops" followed by the valid
line "data: ok" decodes to exactly the one valid event. -/
theorem c2_malformed_line_skipped_witness :
    processStream parseW ["data: oops", "data: ok"] = [1] :=
  (c2_malformed_line_skipped parseW "data: oops" "data: ok" 1 (by decide)
    (by decide) (by decide) (by decide) (by decide) (by decide)).2

/-- C5: a line equal (after strip) to the termination sentinel ends the
decoded sequence, and the specification's three-line test yields exactly
the one event decoded from the first line, with the third line never
contributing regardless of how it would parse. -/
theorem c5_done_sentinel_stops {α : Type} (parse : String → Option α) :
    (∀ (l : String) (rest : List String), pyStrip l = "data: [DONE]" →
      processStream parse (l :: rest) = []) ∧
      (∀ (c : α) (l3 : String) (rest : List String),
        parse jsonHiBody = some c →
        processStream parse (lineHi :: "data: [DONE]" :: l3 :: rest) = [c]) := by
  constructor
  · intro l rest h
    exact processStream_done parse l rest h
  · intro c l3 rest hp
    have hbody : pyDrop lineHi 6 = jsonHiBody := by decide
    rw [processStream_yield parse lineHi ("data: [DONE]" :: l3 :: rest) c
        (by decide) (by decide) (hbody ▸ hp),
      processStream_done parse "data: [DONE]" (l3 :: rest) (by decide)]

/-- C5 witness: the specification's exact three lines, with a parse
function that decodes the first body to the event 7, yield [7]. -/
theorem c5_done_sentinel_stops_witness :
    processStream parseHi [lineHi, "data: [DONE]", lineIgnored] = [7] :=
  (c5_done_sentinel_stops parseHi).2 7 lineIgnored [] (by decide)

/-- C8: remote http/https references are returned unchanged by the image
resolver, independently of the filesystem collaborator (no I/O), so
resolution is idempotent on already-resolved remote URLs. -/
theorem c8_remote_url_passthrough (r : String) (fs fs2 : FS)
    (h : (pyStartsWith r "http://" || pyStartsWith r "https://") = true) :
    encode_image_to_base64 fs r = some r ∧
      encode_image_to_base64 fs2 r = encode_image_to_base64 fs r := by
  constructor
  · simp [encode_image_to_base64, h]
  · simp [encode_image_to_base64, h]

/-- C8 witness: a concrete remote URL resolves to itself on two
different filesystems. -/
theorem c8_remote_url_passthrough_witness :
    encode_image_to_base64 fsNone "http://a/b.png" = some "http://a/b.png" ∧
      encode_image_to_base64 fsAA "http://a/b.png" =
        encode_image_to_base64 fsNone "http://a/b.png" :=
  c8_remote_url_passthrough "http://a/b.png" fsNone fsAA (by decide)

/-- C10: the consumption loop body is total on every decoded event
(never an IndexError or KeyError), and an event with an empty choices
list, a first delta lacking the content key, or a null content is
skipped with the accumulated string unchanged. -/
theorem c10_consumer_guards_total (acc : String) (c : Chunk) :
    (∃ s, consumeChunk acc c = Except.ok s) ∧
      (c.choices = some [] → consumeChunk acc c = Except.ok acc) ∧
      (∀ choice rest, c.choices = some (choice :: rest) →
        choice.delta.content = none ∨ choice.delta.content = some none →
        consumeChunk acc c = Except.ok acc) := by
  refine ⟨?_, ?_, ?_⟩
  · rcases c with ⟨choices, u⟩
    rcases choices with _ | chs
    · exact ⟨acc, rfl⟩
    · rcases chs with _ | ⟨ch, rest⟩
      · exact ⟨acc, rfl⟩
      · rcases ch with ⟨⟨cont⟩⟩
        rcases cont with _ | s
        · exact ⟨acc, rfl⟩
        · rcases s with _ | s
          · exact ⟨acc, rfl⟩
          · exact ⟨acc ++ s, rfl⟩
  · intro h
    rcases c with ⟨choices, u⟩
    simp only at h
    rw [h] at *
    rfl
  · intro choice rest h hc
    rcases c with ⟨choices, u⟩
    simp only at h
    subst h
    rcases hc with hc | hc <;>
      simp [consumeChunk, pyIndex, hc]

/-- C10 witness: an empty-choices event and a null-content event both
leave the accumulator "a" unchanged. -/
theorem c10_consumer_guards_total_witness :
    consumeChunk "a" ⟨some [], none⟩ = Except.ok "a" ∧
      consumeChunk "a" ⟨some [⟨⟨some none⟩⟩], none⟩ = Except.ok "a" :=
  ⟨(c10_consumer_guards_total "a" ⟨some [], none⟩).2.1 rfl,
    (c10_consumer_guards_total "a" ⟨some [⟨⟨some none⟩⟩], none⟩).2.2
      ⟨⟨some none⟩⟩ [] rfl (Or.inr rfl)⟩

/-- One consumption step adds exactly the chunk's delta contribution. -/
theorem consumeChunk_ok (acc : String) (c : Chunk) :
    consumeChunk acc c = Except.ok (acc ++ chunkDelta c) := by
  rcases c with ⟨choices, u⟩
  rcases choices with _ | chs
  · simp [consumeChunk, chunkDelta]
  · rcases chs with _ | ⟨ch, rest⟩
    · simp [consumeChunk, chunkDelta]
    · rcases ch with ⟨⟨cont⟩⟩
      rcases cont with _ | s
      · simp [consumeChunk, chunkDelta, pyIndex]
      · rcases s with _ | s <;> simp [consumeChunk, chunkDelta, pyIndex]

/-- The consumption loop never raises and computes the in-order
concatenation of the stream's delta contributions. -/
theorem consumeLoop_ok (chunks : List Chunk) :
    ∀ acc, consumeLoop acc chunks =
      Except.ok (acc ++ concatStrings (chunks.map chunkDelta)) := by
  induction chunks with
  | nil => intro acc; simp [consumeLoop, concatStrings]
  | cons c cs ih =>
    intro acc
    have hstep : consumeLoop acc (c :: cs) = consumeLoop (acc ++ chunkDelta c) cs := by
      rw [consumeLoop, consumeChunk_ok acc c]
    rw [hstep, ih (acc ++ chunkDelta c)]
    simp [concatStrings, String.append_assoc]

/-- C4: for a turn whose stream completes, full_response equals the
in-order concatenation of the non-null content deltas; a non-empty
accumulated string is committed as exactly one assistant message holding
it as a single text block, an empty one commits nothing; in particular
the deltas "He", "llo" commit one assistant message "Hello". -/
theorem c4_accumulated_concat_commit (hist : List Message)
    (content : List ContentBlock) (chunks : List Chunk) :
    accumulate chunks = Except.ok (concatStrings (chunks.map chunkDelta)) ∧
      runTurn hist content (TransportResult.success chunks) =
        (hist ++ [userMessage content] ++
          (if concatStrings (chunks.map chunkDelta) = "" then []
            else [assistantMessage (concatStrings (chunks.map chunkDelta))]),
          none) ∧
      runTurn hist content (TransportResult.success
          [⟨some [⟨⟨some (some "He")⟩⟩], none⟩,
            ⟨some [⟨⟨some (some "llo")⟩⟩], none⟩]) =
        (hist ++ [userMessage content, assistantMessage "Hello"], none) := by
  have hacc : accumulate chunks =
      Except.ok (concatStrings (chunks.map chunkDelta)) := by
    rw [accumulate, consumeLoop_ok chunks ""]
    simp
  refine ⟨hacc, ?_, ?_⟩
  · rw [runTurn]
    simp only [hacc]
    rw [commitAssistant]
    by_cases hc : concatStrings (chunks.map chunkDelta) = "" <;> simp [hc]
  · rw [runTurn]
    have : accumulate
        [⟨some [⟨⟨some (some "He")⟩⟩], none⟩,
          ⟨some [⟨⟨some (some "llo")⟩⟩], none⟩] = Except.ok "Hello" := rfl
    simp only [this]
    rw [commitAssistant, if_neg (by decide)]
    simp

/-- C1 counterexample: after a transport failure the history is not equal
to the history from before the turn began — the user message appended at
the start of the turn is retained. -/
theorem c1_history_changed_counterexample :
    (runTurn initialMessages [ContentBlock.text "hi"]
        (TransportResult.failure "connection error")).1 ≠ initialMessages := by
  decide

/-- C1 (amended): a transport failure aborts the turn with no assistant
message appended and the error surfaced as a recoverable value; the
resulting history is exactly the pre-turn history plus the user message
appended at the start of the turn, and the loop continues. -/
theorem c1_transport_failure_keeps_user_message (hist : List Message)
    (content : List ContentBlock) (e : String) :
    runTurn hist content (TransportResult.failure e) =
      (hist ++ [userMessage content], some e) := rfl

/-- Every turn extends the history by user/assistant messages only. -/
theorem runTurn_shape (hist : List Message) (content : List ContentBlock)
    (tr : TransportResult) :
    ∃ extra, (runTurn hist content tr).1 = hist ++ extra ∧
      ∀ m ∈ extra, m.role ≠ Role.system := by
  rcases tr with e | chunks
  · refine ⟨[userMessage content], rfl, ?_⟩
    intro m hm
    simp only [List.mem_singleton] at hm
    subst hm
    simp [userMessage]
  · rcases hacc : accumulate chunks with e | full
    · refine ⟨[userMessage content], ?_, ?_⟩
      · simp [runTurn, hacc]
      · intro m hm
        simp only [List.mem_singleton] at hm
        subst hm
        simp [userMessage]
    · by_cases hf : full = ""
      · refine ⟨[userMessage content], ?_, ?_⟩
        · simp [runTurn, hacc, commitAssistant, hf]
        · intro m hm
          simp only [List.mem_singleton] at hm
          subst hm
          simp [userMessage]
      · refine ⟨[userMessage content, assistantMessage full], ?_, ?_⟩
        · simp [runTurn, hacc, commitAssistant, hf]
        · intro m hm
          simp only [List.mem_cons, List.not_mem_nil, or_false] at hm
          rcases hm with rfl | rfl
          · simp [userMessage]
          · simp [assistantMessage]

/-- C9: in every reachable session state the history starts with the one
system message created at startup, and it contains exactly one
system-role message — every later append has role user or assistant. -/
theorem c9_system_message_invariant (hist : List Message)
    (h : Reachable hist) :
    hist.head? = some systemMessage ∧
      hist.countP (fun m => decide (m.role = Role.system)) = 1 := by
  induction h with
  | init => decide
  | step hist2 content tr _ ih =>
    obtain ⟨extra, heq, hroles⟩ := runTurn_shape hist2 content tr
    rw [heq]
    obtain ⟨ih1, ih2⟩ := ih
    constructor
    · cases hist2 with
      | nil => simp at ih1
      | cons m rest => simpa using ih1
    · rw [List.countP_append, ih2]
      have hz : extra.countP (fun m => decide (m.role = Role.system)) = 0 := by
        rw [List.countP_eq_zero]
        intro m hm
        simpa using hroles m hm
      omega

/-- C9 witness: the invariant holds at the initial history. -/
theorem c9_system_message_invariant_witness :
    initialMessages.head? = some systemMessage ∧
      initialMessages.countP (fun m => decide (m.role = Role.system)) = 1 :=
  c9_system_message_invariant initialMessages Reachable.init

/-- C6 (code evaluation): on the markerless input " hi " the assembler
returns the stripped text, not the untrimmed original required by the
claim; the untrimmed fallback branch is reached only when the input
strips to nothing, as on "   ". -/
theorem c6_no_marker_input_is_stripped :
    process_user_input fsNone " hi " = [ContentBlock.text "hi"] ∧
      process_user_input fsNone " hi " ≠ [ContentBlock.text " hi "] ∧
      process_user_input fsNone "   " = [ContentBlock.text "   "] :=
  ⟨by decide, by decide, by decide⟩

/-- C7: a marker whose reference fails resolution produces a text block
naming the reference and never an image block, and the failure stays
inside the turn (the assembler is total): concretely, with img.png
unresolvable, "x ![](img.png) y" assembles to three text blocks. -/
theorem c7_failed_resolution_text_marker (fs : FS) (path : String)
    (h : encode_image_to_base64 fs path = none) :
    resolveBlock fs path = ContentBlock.text (failText path) ∧
      (∀ url, resolveBlock fs path ≠ ContentBlock.imageUrl url) ∧
      (path = "img.png" →
        process_user_input fs "x ![](img.png) y" =
          [ContentBlock.text "x", ContentBlock.text (failText "img.png"),
            ContentBlock.text "y"]) := by
  have hrb : resolveBlock fs path = ContentBlock.text (failText path) := by
    rw [resolveBlock, h]
  refine ⟨hrb, ?_, ?_⟩
  · intro url hcontra
    rw [hrb] at hcontra
    exact ContentBlock.noConfusion hcontra
  · intro hp
    subst hp
    have key : process_user_input fs "x ![](img.png) y" =
        [ContentBlock.text "x", resolveBlock fs "img.png",
          ContentBlock.text "y"] := rfl
    rw [key, hrb]

/-- C7 witness: on a filesystem where every local read fails, img.png
degrades to the inline failure text and never to an image block. -/
theorem c7_failed_resolution_text_marker_witness :
    resolveBlock fsNone "img.png" = ContentBlock.text (failText "img.png") ∧
      (∀ url, resolveBlock fsNone "img.png" ≠ ContentBlock.imageUrl url) ∧
      ("img.png" = "img.png" →
        process_user_input fsNone "x ![](img.png) y" =
          [ContentBlock.text "x", ContentBlock.text (failText "img.png"),
            ContentBlock.text "y"]) :=
  c7_failed_resolution_text_marker fsNone "img.png" (by decide)

/-- The close-paren scan consumes at least one character. -/
theorem scanClose_length (cs : List Char) :
    ∀ acc cap rest, scanClose acc cs = some (cap, rest) →
      rest.length < cs.length := by
  induction cs with
  | nil =>
    intro acc cap rest h
    exact absurd h (by simp [scanClose])
  | cons c cs2 ih =>
    intro acc cap rest h
    rw [scanClose] at h
    split at h
    · simp only [Option.some.injEq, Prod.mk.injEq] at h
      obtain ⟨h1, h2⟩ := h
      subst h2
      simp [Nat.lt_succ_self]
    · split at h
      · exact absurd h (by simp)
      · exact Nat.lt_trans (ih (c :: acc) cap rest h) (Nat.lt_succ_self _)

/-- A capture match consumes at least two characters. -/
theorem findCapture_length (cs : List Char) :
    ∀ cap rest, findCapture cs = some (cap, rest) → rest.length < cs.length := by
  cases cs with
  | nil =>
    intro cap rest h
    exact absurd h (by simp [findCapture])
  | cons c cs2 =>
    intro cap rest h
    rw [findCapture] at h
    split at h
    · exact absurd h (by simp)
    · exact Nat.lt_trans (scanClose_length cs2 [c] cap rest h) (Nat.lt_succ_self _)

/-- A marker match consumes at least five characters, so the remainder
is strictly shorter than the input. -/
theorem findMarker_length (cs : List Char) :
    ∀ before cap rest, findMarker cs = some (before, cap, rest) →
      rest.length < cs.length := by
  induction cs with
  | nil =>
    intro b cap r h
    exact absurd h (by simp [findMarker])
  | cons c cs2 ih =>
    intro b cap r h
    rw [findMarker] at h
    split at h
    · cases hfc : findCapture ((c :: cs2).drop 4) with
      | some pr =>
        obtain ⟨cap2, rest2⟩ := pr
        rw [hfc] at h
        simp only [Option.some.injEq, Prod.mk.injEq] at h
        obtain ⟨h1, h2, h3⟩ := h
        subst h3
        have hd := findCapture_length ((c :: cs2).drop 4) cap2 rest2 hfc
        have : ((c :: cs2).drop 4).length ≤ (c :: cs2).length := by
          rw [List.length_drop]
          omega
        omega
      | none =>
        rw [hfc] at h
        cases hm : findMarker cs2 with
        | some trip =>
          obtain ⟨b2, cap2, rest2⟩ := trip
          rw [hm] at h
          simp only [Option.some.injEq, Prod.mk.injEq] at h
          obtain ⟨h1, h2, h3⟩ := h
          subst h3
          exact Nat.lt_trans (ih b2 cap2 rest2 hm) (Nat.lt_succ_self _)
        | none =>
          rw [hm] at h
          exact absurd h (by simp)
    · cases hm : findMarker cs2 with
      | some trip =>
        obtain ⟨b2, cap2, rest2⟩ := trip
        rw [hm] at h
        simp only [Option.some.injEq, Prod.mk.injEq] at h
        obtain ⟨h1, h2, h3⟩ := h
        subst h3
        exact Nat.lt_trans (ih b2 cap2 rest2 hm) (Nat.lt_succ_self _)
      | none =>
        rw [hm] at h
        exact absurd h (by simp)

/-- Any fuel above the input length computes the same block list: the
length + 1 fuel used by process_user_input never runs out, so the fueled
loop is a faithful rendering of the source's terminating match loop. -/
theorem assembleLoopF_fuel (fs : FS) :
    ∀ (f1 : Nat) (cs : List Char) (f2 : Nat), cs.length < f1 → cs.length < f2 →
      assembleLoopF fs f1 cs = assembleLoopF fs f2 cs := by
  intro f1
  induction f1 with
  | zero =>
    intro cs f2 h1 h2
    omega
  | succ f1' ih =>
    intro cs f2 h1 h2
    cases f2 with
    | zero => omega
    | succ f2' =>
      cases hm : findMarker cs with
      | none => simp only [assembleLoopF, hm]
      | some trip =>
        obtain ⟨before, cap, rest⟩ := trip
        have hlt := findMarker_length cs before cap rest hm
        simp only [assembleLoopF, hm]
        rw [ih rest f2' (by omega) (by omega)]

/-- The close-paren scan returns a capture and remainder that
reconstruct its input after the accumulated text. -/
theorem scanClose_decomp (cs : List Char) :
    ∀ acc cap rest, scanClose acc cs = some (cap, rest) →
      acc.reverse ++ cs = cap ++ ')' :: rest := by
  induction cs with
  | nil =>
    intro acc cap rest h
    exact absurd h (by simp [scanClose])
  | cons c cs2 ih =>
    intro acc cap rest h
    rw [scanClose] at h
    split at h
    · next hc =>
      simp only [Option.some.injEq, Prod.mk.injEq] at h
      obtain ⟨h1, h2⟩ := h
      subst h1
      subst h2
      subst hc
      rfl
    · split at h
      · exact absurd h (by simp)
      · have hrec := ih (c :: acc) cap rest h
        rw [← hrec, List.reverse_cons, List.append_assoc]
        rfl

/-- A capture match reconstructs its input: the capture, the closing
paren, then the remainder. -/
theorem findCapture_decomp (cs : List Char) :
    ∀ cap rest, findCapture cs = some (cap, rest) → cs = cap ++ ')' :: rest := by
  cases cs with
  | nil =>
    intro cap rest h
    exact absurd h (by simp [findCapture])
  | cons c cs2 =>
    intro cap rest h
    rw [findCapture] at h
    split at h
    · exact absurd h (by simp)
    · have hrec := scanClose_decomp cs2 [c] cap rest h
      simpa using hrec

/-- A marker match reconstructs its input: the text before the match,
the literal marker opener, the capture, the closing paren, then the
remainder — the match sits at its source position. -/
theorem findMarker_decomp (cs : List Char) :
    ∀ before cap rest, findMarker cs = some (before, cap, rest) →
      cs = before ++ markerOpen ++ cap ++ ')' :: rest := by
  induction cs with
  | nil =>
    intro b cap r h
    exact absurd h (by simp [findMarker])
  | cons c cs2 ih =>
    intro b cap r h
    rw [findMarker] at h
    split at h
    · next hpre =>
      cases hfc : findCapture ((c :: cs2).drop 4) with
      | some pr =>
        obtain ⟨cap2, rest2⟩ := pr
        rw [hfc] at h
        simp only [Option.some.injEq, Prod.mk.injEq] at h
        obtain ⟨h1, h2, h3⟩ := h
        subst h1
        subst h2
        subst h3
        obtain ⟨t, ht⟩ := List.isPrefixOf_iff_prefix.mp hpre
        have hdrop : (c :: cs2).drop 4 = t := by
          rw [← ht, show (4 : Nat) = markerOpen.length from rfl]
          exact List.drop_left markerOpen t
        have ht2 : t = cap2 ++ ')' :: rest2 :=
          hdrop.symm.trans (findCapture_decomp ((c :: cs2).drop 4) cap2 rest2 hfc)
        rw [List.nil_append, ← ht, ht2]
        simp [List.append_assoc]
      | none =>
        rw [hfc] at h
        cases hm : findMarker cs2 with
        | some trip =>
          obtain ⟨b2, cap2, rest2⟩ := trip
          rw [hm] at h
          simp only [Option.some.injEq, Prod.mk.injEq] at h
          obtain ⟨h1, h2, h3⟩ := h
          subst h1
          subst h2
          subst h3
          rw [List.cons_append, ih b2 cap2 rest2 hm]
          simp [List.append_assoc]
        | none =>
          rw [hm] at h
          exact absurd h (by simp)
    · cases hm : findMarker cs2 with
      | some trip =>
        obtain ⟨b2, cap2, rest2⟩ := trip
        rw [hm] at h
        simp only [Option.some.injEq, Prod.mk.injEq] at h
        obtain ⟨h1, h2, h3⟩ := h
        subst h1
        subst h2
        subst h3
        rw [List.cons_append, ih b2 cap2 rest2 hm]
        simp [List.append_assoc]
      | none =>
        rw [hm] at h
        exact absurd h (by simp)

/-- Refinement of the assembler loop by the spec's in-order rendering:
every input splits, left to right, into marker segments plus a trailing
remainder that reconstruct it exactly, and the loop's output is the
in-order rendering of those segments. -/
theorem assembleLoopF_renders (fs : FS) :
    ∀ (fuel : Nat) (cs : List Char), cs.length < fuel →
      ∃ segs trail, cs = reassemble segs trail ∧
        assembleLoopF fs fuel cs = renderBlocks fs segs trail := by
  intro fuel
  induction fuel with
  | zero =>
    intro cs hlen
    omega
  | succ fuel ih =>
    intro cs hlen
    cases hm : findMarker cs with
    | none =>
      refine ⟨[], cs, rfl, ?_⟩
      simp only [assembleLoopF, hm, renderBlocks]
    | some trip =>
      obtain ⟨before, cap, rest⟩ := trip
      have hlt := findMarker_length cs before cap rest hm
      obtain ⟨segs, trail, hre, hrb⟩ := ih rest (by omega)
      refine ⟨(before, cap) :: segs, trail, ?_, ?_⟩
      · rw [reassemble, ← hre]
        exact findMarker_decomp cs before cap rest hm
      · simp only [assembleLoopF, hm, renderBlocks, hrb]

/-- C3: the input "see ![](img.png) now", with img.png resolving to the
data URI, assembles to exactly the three blocks Text "see", Image,
Text "now" in that order; the assembler never returns an empty block
list for any input; and in general every input decomposes, left to
right, into marker segments that reconstruct it exactly and whose
in-order rendering — trimmed text before each marker, the resolved
block for the marker, trimmed trailing text — is the assembler's
output, so blocks appear in the left-to-right order of their source
text with the text around image markers trimmed. -/
theorem c3_interleaved_blocks (fs : FS)
    (h : encode_image_to_base64 fs "img.png" = some "data:image/jpeg;base64,AA==") :
    process_user_input fs "see ![](img.png) now" =
      [ContentBlock.text "see",
        ContentBlock.imageUrl "data:image/jpeg;base64,AA==",
        ContentBlock.text "now"] ∧
      (∀ (fs2 : FS) (t : String), process_user_input fs2 t ≠ []) ∧
      (∀ (fs2 : FS) (t : String), ∃ segs trail,
        t.data = reassemble segs trail ∧
        process_user_input fs2 t =
          (if renderBlocks fs2 segs trail = [] then [ContentBlock.text t]
            else renderBlocks fs2 segs trail)) := by
  refine ⟨?_, ?_, ?_⟩
  · have key : process_user_input fs "see ![](img.png) now" =
        [ContentBlock.text "see", resolveBlock fs "img.png",
          ContentBlock.text "now"] := rfl
    rw [key, resolveBlock, h]
  · intro fs2 t
    rw [process_user_input]
    split
    · simp
    · next hne => exact hne
  · intro fs2 t
    obtain ⟨segs, trail, hre, hrb⟩ :=
      assembleLoopF_renders fs2 (t.data.length + 1) t.data (Nat.lt_succ_self _)
    refine ⟨segs, trail, hre, ?_⟩
    rw [process_user_input, hrb]

/-- C3 witness: a filesystem on which img.png resolves to the data URI
realises the hypothesis; the three blocks come out in order and the
general decomposition holds. -/
theorem c3_interleaved_blocks_witness :
    process_user_input fsAA "see ![](img.png) now" =
      [ContentBlock.text "see",
        ContentBlock.imageUrl "data:image/jpeg;base64,AA==",
        ContentBlock.text "now"] ∧
      (∀ (fs2 : FS) (t : String), process_user_input fs2 t ≠ []) ∧
      (∀ (fs2 : FS) (t : String), ∃ segs trail,
        t.data = reassemble segs trail ∧
        process_user_input fs2 t =
          (if renderBlocks fs2 segs trail = [] then [ContentBlock.text t]
            else renderBlocks fs2 segs trail)) :=
  c3_interleaved_blocks fsAA (by decide)
